import Mathlib

set_option autoImplicit false

namespace Sessionmanager

/-- Lookup in an association-list model of a Go map with string keys. -/
def mapLookup {α : Type} : List (String × α) → String → Option α
  | [], _ => none
  | (k, v) :: rest, x => if k = x then some v else mapLookup rest x

/-- Insert-or-replace in an association-list model of a Go map with string keys. -/
def mapInsert {α : Type} : List (String × α) → String → α → List (String × α)
  | [], x, v => [(x, v)]
  | (k, w) :: rest, x, v => if k = x then (x, v) :: rest else (k, w) :: mapInsert rest x v

/-- Deletion in an association-list model of a Go map with string keys. -/
def mapDelete {α : Type} : List (String × α) → String → List (String × α)
  | [], _ => []
  | (k, w) :: rest, x => if k = x then mapDelete rest x else (k, w) :: mapDelete rest x

/-- PeerSession record. Fields as used by session_manager_mock.go and described in the
spec data model: optional session nonce (Go *string), optional peer identity key
(Go *string), authentication flag, and the last-update instant (Go time.Time modelled
as a Nat instant; t.After u is the strict order u < t). -/
structure PeerSession where
  sessionNonce : Option String
  peerIdentityKey : Option String
  isAuthenticated : Bool
  lastUpdate : Nat
  deriving DecidableEq

/-- SessionManager state: the two Go maps of the struct in session_manager_mock.go.
The sync.Mutex field is omitted: this is the sequential model of the critical sections. -/
structure SessionManager where
  sessions : List (String × PeerSession)
  identityKeyToSessions : List (String × List String)
  deriving DecidableEq

/-- NewSessionManager creates the empty store (both maps empty). -/
def NewSessionManager : SessionManager :=
  { sessions := [], identityKeyToSessions := [] }

/-- addSessionByIdentityKey from the source. It dereferences *session.PeerIdentityKey
(guarded by the caller) and *session.SessionNonce (unguarded in the source); a nil
dereference, a Go runtime panic, is modelled as none. -/
def addSessionByIdentityKey (m : SessionManager) (session : PeerSession) : Option SessionManager :=
  match session.peerIdentityKey, session.sessionNonce with
  | some ident, some nonce =>
    match mapLookup m.identityKeyToSessions ident with
    | some sessionNonces =>
      some { m with identityKeyToSessions :=
               mapInsert m.identityKeyToSessions ident (sessionNonces ++ [nonce]) }
    | none =>
      some { m with identityKeyToSessions :=
               mapInsert m.identityKeyToSessions ident [nonce] }
  | some _, none => none
  | none, _ => none

/-- AddSession from the source: store under the nonce when present, then file the nonce
under the identity key when that is present. The result is none exactly when the Go
code panics. -/
def AddSession (m : SessionManager) (session : PeerSession) : Option SessionManager :=
  let m1 := match session.sessionNonce with
    | some nonce => { m with sessions := mapInsert m.sessions nonce session }
    | none => m
  match session.peerIdentityKey with
  | some _ => addSessionByIdentityKey m1 session
  | none => some m1

/-- UpdateSession from the source: delegates to AddSession. -/
def UpdateSession (m : SessionManager) (session : PeerSession) : Option SessionManager :=
  AddSession m session

/-- One iteration of the getBestSession loop body over a candidate session nonce. -/
def getBestSessionStep (m : SessionManager) (bestSession : Option PeerSession)
    (sessionNonce : String) : Option PeerSession :=
  match mapLookup m.sessions sessionNonce with
  | none => bestSession
  | some session =>
    match bestSession with
    | none => some session
    | some best =>
      if session.isAuthenticated && !best.isAuthenticated then some session
      else if session.isAuthenticated == best.isAuthenticated
              && best.lastUpdate < session.lastUpdate then some session
      else bestSession

/-- getBestSession from the source: a left fold of the loop body over the nonce list,
starting from no selection. -/
def getBestSession (m : SessionManager) (sessionNonces : List String) : Option PeerSession :=
  sessionNonces.foldl (getBestSessionStep m) none

/-- GetSession from the source: the handle index first, then the identity index
resolved through getBestSession; none is the Go nil result. -/
def GetSession (m : SessionManager) (identifier : String) : Option PeerSession :=
  match mapLookup m.sessions identifier with
  | some session => some session
  | none =>
    match mapLookup m.identityKeyToSessions identifier with
    | none => none
    | some sessionNonces => getBestSession m sessionNonces

/-- removeSessionNonce from the source: keeps every element different from the target. -/
def removeSessionNonce (slice : List String) (target : String) : List String :=
  slice.filter (fun str => str != target)

/-- RemoveSession from the source: delete the handle entry when the nonce is present;
when the identity key is present and its handle-set exists, dereference
*session.SessionNonce (a panic, modelled as none, when absent), filter it out of the
set, and drop the identity entry if the set became empty. -/
def RemoveSession (m : SessionManager) (session : PeerSession) : Option SessionManager :=
  let m1 := match session.sessionNonce with
    | some nonce => { m with sessions := mapDelete m.sessions nonce }
    | none => m
  match session.peerIdentityKey with
  | none => some m1
  | some ident =>
    match mapLookup m1.identityKeyToSessions ident with
    | none => some m1
    | some sessionNonces =>
      match session.sessionNonce with
      | none => none
      | some nonce =>
        let updatedNonces := removeSessionNonce sessionNonces nonce
        if updatedNonces.isEmpty then
          some { m1 with identityKeyToSessions := mapDelete m1.identityKeyToSessions ident }
        else
          some { m1 with identityKeyToSessions :=
                   mapInsert m1.identityKeyToSessions ident updatedNonces }

/-- HasSession from the source: a handle-index hit, or a non-empty handle-set under the
identity index. -/
def HasSession (m : SessionManager) (identifier : String) : Bool :=
  match mapLookup m.sessions identifier with
  | some _ => true
  | none =>
    match mapLookup m.identityKeyToSessions identifier with
    | none => false
    | some nonces => decide (0 < nonces.length)

/-- One call against the store; UpdateSession delegates to AddSession in the source. -/
inductive Op where
  | add (session : PeerSession)
  | update (session : PeerSession)
  | remove (session : PeerSession)
  deriving DecidableEq

/-- The PeerSession argument an operation carries. -/
def Op.record : Op → PeerSession
  | .add s => s
  | .update s => s
  | .remove s => s

/-- Apply one operation to the store; none models a Go panic inside that call. -/
def applyOp (m : SessionManager) : Op → Option SessionManager
  | .add s => AddSession m s
  | .update s => UpdateSession m s
  | .remove s => RemoveSession m s

/-- Run a sequence of operations from a starting store; none if any call panics. -/
def runOps (m : SessionManager) : List Op → Option SessionManager
  | [] => some m
  | op :: rest =>
    match applyOp m op with
    | none => none
    | some m1 => runOps m1 rest

/-- GetSession with the store state threaded explicitly through every step, including
each iteration of the getBestSession loop: the state-passing reading of the source. -/
def GetSessionSt (m : SessionManager) (identifier : String) :
    Option PeerSession × SessionManager :=
  match mapLookup m.sessions identifier with
  | some session => (some session, m)
  | none =>
    match mapLookup m.identityKeyToSessions identifier with
    | none => (none, m)
    | some sessionNonces =>
      sessionNonces.foldl (fun acc nonce => (getBestSessionStep acc.2 acc.1 nonce, acc.2))
        (none, m)

/-- HasSession with the store state threaded explicitly through every step. -/
def HasSessionSt (m : SessionManager) (identifier : String) : Bool × SessionManager :=
  match mapLookup m.sessions identifier with
  | some _ => (true, m)
  | none =>
    match mapLookup m.identityKeyToSessions identifier with
    | none => (false, m)
    | some nonces => (decide (0 < nonces.length), m)

/-- Index-consistency relative to an assignment of identity keys to nonces: every handle
filed under an identity belongs to that identity under the assignment and resolves in
the handle index. -/
def InvI (ι : String → String) (m : SessionManager) : Prop :=
  ∀ k ns, mapLookup m.identityKeyToSessions k = some ns →
    ∀ n ∈ ns, ι n = k ∧ (mapLookup m.sessions n).isSome

theorem mapLookup_insert {α : Type} (m : List (String × α)) (k x : String) (v : α) :
    mapLookup (mapInsert m k v) x = if k = x then some v else mapLookup m x := by
  induction m with
  | nil => simp [mapInsert, mapLookup]
  | cons p rest ih =>
    obtain ⟨a, w⟩ := p
    by_cases hak : a = k <;> by_cases hkx : k = x <;>
      simp_all [mapInsert, mapLookup]

theorem mapLookup_delete {α : Type} (m : List (String × α)) (k x : String) :
    mapLookup (mapDelete m k) x = if k = x then none else mapLookup m x := by
  induction m with
  | nil => simp [mapDelete, mapLookup]
  | cons p rest ih =>
    obtain ⟨a, w⟩ := p
    by_cases hak : a = k <;> by_cases hkx : k = x <;>
      simp_all [mapDelete, mapLookup]

theorem mapInsert_mapInsert {α : Type} (m : List (String × α)) (k : String) (v w : α) :
    mapInsert (mapInsert m k v) k w = mapInsert m k w := by
  induction m with
  | nil => simp [mapInsert]
  | cons p rest ih =>
    obtain ⟨a, u⟩ := p
    by_cases hak : a = k <;> simp_all [mapInsert]

theorem isSome_mapLookup_insert {α : Type} {m : List (String × α)} {x : String} (k : String)
    (v : α) (h : (mapLookup m x).isSome) : (mapLookup (mapInsert m k v) x).isSome := by
  rw [mapLookup_insert]
  split <;> simp [h]

theorem getBestSessionStep_self (m : SessionManager) {n : String} {s : PeerSession}
    (hl : mapLookup m.sessions n = some s) :
    getBestSessionStep m (some s) n = some s := by
  simp only [getBestSessionStep, hl]
  split
  · rfl
  · split <;> rfl

theorem getBestSessionStep_cases (m : SessionManager) (b : Option PeerSession) (n : String)
    {s : PeerSession} (hl : mapLookup m.sessions n = some s) :
    getBestSessionStep m b n = some s ∨ getBestSessionStep m b n = b := by
  cases b with
  | none => exact Or.inl (by simp [getBestSessionStep, hl])
  | some best =>
    simp only [getBestSessionStep, hl]
    split
    · exact Or.inl rfl
    · split
      · exact Or.inl rfl
      · exact Or.inr rfl

theorem getBestSessionStep_idem (m : SessionManager) (b : Option PeerSession) (n : String) :
    getBestSessionStep m (getBestSessionStep m b n) n = getBestSessionStep m b n := by
  cases hl : mapLookup m.sessions n with
  | none => simp [getBestSessionStep, hl]
  | some s =>
    rcases getBestSessionStep_cases m b n hl with h | h <;> rw [h]
    · exact getBestSessionStep_self m hl
    · exact h

theorem getBestSessionStep_eq_none_iff (m : SessionManager) (b : Option PeerSession)
    (n : String) :
    getBestSessionStep m b n = none ↔ b = none ∧ mapLookup m.sessions n = none := by
  cases hl : mapLookup m.sessions n with
  | none => simp [getBestSessionStep, hl]
  | some s =>
    rcases getBestSessionStep_cases m b n hl with h | h <;> rw [h] <;> simp [hl]
    rintro rfl
    simp [getBestSessionStep, hl] at h

theorem foldl_getBestSessionStep_eq_none (m : SessionManager) (l : List String)
    (b : Option PeerSession) :
    l.foldl (getBestSessionStep m) b = none ↔
      b = none ∧ ∀ n ∈ l, mapLookup m.sessions n = none := by
  induction l generalizing b with
  | nil => simp
  | cons n l ih =>
    simp only [List.foldl_cons, ih, getBestSessionStep_eq_none_iff, List.mem_cons]
    constructor
    · rintro ⟨⟨hb, hn⟩, hl⟩
      exact ⟨hb, fun x hx => hx.elim (fun h => h ▸ hn) (hl x)⟩
    · rintro ⟨hb, hall⟩
      exact ⟨⟨hb, hall n (Or.inl rfl)⟩, fun x hx => hall x (Or.inr hx)⟩

theorem getBestSession_append_dup (m : SessionManager) (l : List String) (n : String) :
    getBestSession m (l ++ [n, n]) = getBestSession m (l ++ [n]) := by
  simp [getBestSession, List.foldl_append, getBestSessionStep_idem]

theorem getBestSession_congr {m m' : SessionManager} (h : m.sessions = m'.sessions)
    (l : List String) : getBestSession m l = getBestSession m' l := by
  have hstep : getBestSessionStep m = getBestSessionStep m' := by
    funext b n
    simp [getBestSessionStep, h]
  simp [getBestSession, hstep]

theorem getBestSession_state_threading (m : SessionManager) (l : List String)
    (b : Option PeerSession) :
    l.foldl (fun acc nonce => (getBestSessionStep acc.2 acc.1 nonce, acc.2)) (b, m) =
      (l.foldl (getBestSessionStep m) b, m) := by
  induction l generalizing b with
  | nil => rfl
  | cons n l ih => simp [List.foldl_cons, ih]

theorem AddSession_both (m : SessionManager) (s : PeerSession) {n k : String}
    (hn : s.sessionNonce = some n) (hk : s.peerIdentityKey = some k) :
    AddSession m s = some
      { sessions := mapInsert m.sessions n s,
        identityKeyToSessions :=
          mapInsert m.identityKeyToSessions k
            ((match mapLookup m.identityKeyToSessions k with
              | some ns => ns
              | none => []) ++ [n]) } := by
  simp only [AddSession, addSessionByIdentityKey, hn, hk]
  cases mapLookup m.identityKeyToSessions k <;> simp

theorem InvI_empty (ι : String → String) : InvI ι NewSessionManager := by
  intro k ns h
  simp [NewSessionManager, mapLookup] at h

theorem InvI_insert_set {ι : String → String} {m : SessionManager} {n : String}
    {sessions' : List (String × PeerSession)}
    (hinv : InvI ι m)
    (hlift : ∀ y, (mapLookup m.sessions y).isSome → (mapLookup sessions' y).isSome)
    {newSet : List String}
    (hnew : ∀ y ∈ newSet, ι y = ι n ∧ (mapLookup sessions' y).isSome) :
    InvI ι { sessions := sessions',
             identityKeyToSessions := mapInsert m.identityKeyToSessions (ι n) newSet } := by
  intro k ns hlk x hx
  dsimp only at hlk
  rw [mapLookup_insert] at hlk
  split at hlk
  · rename_i hik
    injection hlk with he
    subst he
    exact ⟨(hnew x hx).1.trans hik, (hnew x hx).2⟩
  · obtain ⟨h1, h2⟩ := hinv k ns hlk x hx
    exact ⟨h1, hlift x h2⟩

theorem InvI_AddSession {ι : String → String} {m m' : SessionManager} {s : PeerSession}
    (hs : s.peerIdentityKey = s.sessionNonce.map ι)
    (hinv : InvI ι m) (h : AddSession m s = some m') : InvI ι m' := by
  cases hn : s.sessionNonce with
  | none =>
    have hk : s.peerIdentityKey = none := by rw [hs, hn]; rfl
    simp only [AddSession, hn, hk, Option.some.injEq] at h
    subst h
    exact hinv
  | some n =>
    have hk : s.peerIdentityKey = some (ι n) := by rw [hs, hn]; rfl
    rw [AddSession_both m s hn hk] at h
    injection h with h
    subst h
    refine InvI_insert_set hinv (fun y hy => isSome_mapLookup_insert n s hy) ?_
    intro y hy
    cases hl0 : mapLookup m.identityKeyToSessions (ι n) with
    | none =>
      rw [hl0] at hy
      simp only [List.nil_append, List.mem_singleton] at hy
      subst hy
      refine ⟨rfl, ?_⟩
      rw [mapLookup_insert]
      simp
    | some ns0 =>
      rw [hl0] at hy
      simp only [List.mem_append, List.mem_singleton] at hy
      rcases hy with hy | hy
      · obtain ⟨h1, h2⟩ := hinv (ι n) ns0 hl0 y hy
        exact ⟨h1, isSome_mapLookup_insert n s h2⟩
      · subst hy
        refine ⟨rfl, ?_⟩
        rw [mapLookup_insert]
        simp

theorem InvI_RemoveSession {ι : String → String} {m m' : SessionManager} {s : PeerSession}
    (hs : s.peerIdentityKey = s.sessionNonce.map ι)
    (hinv : InvI ι m) (h : RemoveSession m s = some m') : InvI ι m' := by
  cases hn : s.sessionNonce with
  | none =>
    have hk : s.peerIdentityKey = none := by rw [hs, hn]; rfl
    simp only [RemoveSession, hn, hk, Option.some.injEq] at h
    subst h
    exact hinv
  | some n =>
    have hk : s.peerIdentityKey = some (ι n) := by rw [hs, hn]; rfl
    simp only [RemoveSession, hn, hk] at h
    split at h
    · rename_i hl0
      injection h with h
      subst h
      intro k ns hlk x hx
      dsimp only at hlk ⊢
      obtain ⟨h1, h2⟩ := hinv k ns hlk x hx
      refine ⟨h1, ?_⟩
      have hxn : x ≠ n := by
        rintro rfl
        rw [h1] at hl0
        rw [hl0] at hlk
        exact Option.noConfusion hlk
      rw [mapLookup_delete]
      rw [if_neg (fun he => hxn he.symm)]
      exact h2
    · rename_i ns0 hl0
      split at h <;> (injection h with h; subst h) <;> intro k ns hlk x hx <;>
        dsimp only at hlk ⊢
      · rw [mapLookup_delete] at hlk
        split at hlk
        · exact Option.noConfusion hlk
        · rename_i hik
          obtain ⟨h1, h2⟩ := hinv k ns hlk x hx
          have hxn : x ≠ n := by
            rintro rfl
            exact hik (h1 ▸ rfl)
          refine ⟨h1, ?_⟩
          rw [mapLookup_delete, if_neg (fun he => hxn he.symm)]
          exact h2
      · rw [mapLookup_insert] at hlk
        split at hlk
        · rename_i hik
          injection hlk with he
          subst he
          have hx0 : x ∈ ns0 ∧ (x != n) = true := List.mem_filter.mp hx
          have hxn : x ≠ n := by simpa using hx0.2
          obtain ⟨h1, h2⟩ := hinv (ι n) ns0 hl0 x hx0.1
          refine ⟨h1.trans hik, ?_⟩
          rw [mapLookup_delete, if_neg (fun he => hxn he.symm)]
          exact h2
        · rename_i hik
          obtain ⟨h1, h2⟩ := hinv k ns hlk x hx
          have hxn : x ≠ n := by
            rintro rfl
            exact hik (h1 ▸ rfl)
          refine ⟨h1, ?_⟩
          rw [mapLookup_delete, if_neg (fun he => hxn he.symm)]
          exact h2

theorem InvI_runOps {ι : String → String} {ops : List Op} {m m' : SessionManager}
    (hops : ∀ op ∈ ops, (Op.record op).peerIdentityKey = ((Op.record op).sessionNonce).map ι)
    (hinv : InvI ι m) (h : runOps m ops = some m') : InvI ι m' := by
  induction ops generalizing m with
  | nil =>
    simp only [runOps, Option.some.injEq] at h
    subst h
    exact hinv
  | cons op rest ih =>
    simp only [runOps] at h
    cases hap : applyOp m op with
    | none => rw [hap] at h; exact Option.noConfusion h
    | some m1 =>
      rw [hap] at h
      have hop := hops op (List.mem_cons_self op rest)
      have hinv1 : InvI ι m1 := by
        cases op with
        | add s => exact InvI_AddSession hop hinv hap
        | update s => exact InvI_AddSession hop hinv hap
        | remove s => exact InvI_RemoveSession hop hinv hap
      exact ih (fun o ho => hops o (List.mem_cons_of_mem op ho)) hinv1 h

theorem removeSessionNonce_eq_nil {ns : List String} {n : String}
    (h : ∀ x ∈ ns, x = n) : removeSessionNonce ns n = [] := by
  simp only [removeSessionNonce]
  refine List.filter_eq_nil_iff.mpr ?_
  intro a ha
  simp [h a ha]

theorem replicate_append_singleton (i : Nat) (n : String) :
    List.replicate i n ++ [n] = List.replicate (i + 1) n := by
  induction i with
  | zero => rfl
  | succ i ih => simp [List.replicate_succ, ih]

theorem runOps_append (m : SessionManager) (l1 l2 : List Op) :
    runOps m (l1 ++ l2) =
      match runOps m l1 with
      | none => none
      | some m1 => runOps m1 l2 := by
  induction l1 generalizing m with
  | nil => simp [runOps]
  | cons op l1 ih =>
    simp only [List.cons_append, runOps]
    cases applyOp m op <;> simp [ih]

theorem runOps_addLoop (j : Nat) (n k : String) (a : Bool) (t : Nat) (i : Nat) :
    runOps { sessions := [(n, ⟨some n, some k, a, t⟩)],
             identityKeyToSessions := [(k, List.replicate i n)] }
      (List.replicate j (Op.add ⟨some n, some k, a, t⟩)) =
      some { sessions := [(n, ⟨some n, some k, a, t⟩)],
             identityKeyToSessions := [(k, List.replicate (i + j) n)] } := by
  induction j generalizing i with
  | zero => simp [runOps]
  | succ j ih =>
    rw [List.replicate_succ]
    simp only [runOps, applyOp]
    have hstep :
        AddSession
          { sessions := [(n, ⟨some n, some k, a, t⟩)],
            identityKeyToSessions := [(k, List.replicate i n)] }
          ⟨some n, some k, a, t⟩ =
        some { sessions := [(n, ⟨some n, some k, a, t⟩)],
               identityKeyToSessions := [(k, List.replicate (i + 1) n)] } := by
      rw [AddSession_both _ _ rfl rfl]
      simp [mapLookup, mapInsert, replicate_append_singleton]
    rw [hstep]
    have harith : i + 1 + j = i + (j + 1) := by omega
    exact harith ▸ ih (i + 1)

theorem RemoveSession_drain (i : Nat) (n k : String) (a : Bool) (t : Nat) :
    RemoveSession { sessions := [(n, ⟨some n, some k, a, t⟩)],
                    identityKeyToSessions := [(k, List.replicate i n)] }
      ⟨some n, some k, a, t⟩ = some NewSessionManager := by
  have hfilter : removeSessionNonce (List.replicate i n) n = [] :=
    removeSessionNonce_eq_nil (fun x hx => List.eq_of_mem_replicate hx)
  simp [RemoveSession, mapDelete, mapLookup, hfilter, NewSessionManager]

/-- C1: the claim that every SessionManager operation is total fails on the source.
AddSession of a session whose peerIdentityKey is present but whose sessionNonce is
absent dereferences the nil SessionNonce inside addSessionByIdentityKey and panics
(modelled as none), from every store state. -/
theorem c1_addSession_nil_nonce_panics (m : SessionManager) (s : PeerSession) (k : String)
    (hk : s.peerIdentityKey = some k) (hn : s.sessionNonce = none) :
    AddSession m s = none := by
  simp [AddSession, addSessionByIdentityKey, hk, hn]

/-- C1 witness: the panic at the concrete failing input, a fresh store and a session
with identity key present and nonce absent. -/
theorem c1_addSession_nil_nonce_panics_witness :
    AddSession NewSessionManager
      { sessionNonce := none, peerIdentityKey := some "key",
        isAuthenticated := false, lastUpdate := 0 } = none :=
  c1_addSession_nil_nonce_panics NewSessionManager _ "key" rfl rfl

/-- C2 counterexample: adding one identical full session twice from the empty store
leaves the identity's handle-set holding the sessionNonce twice, while one call leaves
it once; the resulting stores differ, refuting idempotence as claimed. -/
theorem c2_add_twice_duplicates_handle :
    (AddSession NewSessionManager
        { sessionNonce := some "n", peerIdentityKey := some "k",
          isAuthenticated := false, lastUpdate := 0 }).bind
      (fun m1 => AddSession m1
        { sessionNonce := some "n", peerIdentityKey := some "k",
          isAuthenticated := false, lastUpdate := 0 }) =
      some { sessions := [("n", { sessionNonce := some "n", peerIdentityKey := some "k",
                                  isAuthenticated := false, lastUpdate := 0 })],
             identityKeyToSessions := [("k", ["n", "n"])] } ∧
    AddSession NewSessionManager
        { sessionNonce := some "n", peerIdentityKey := some "k",
          isAuthenticated := false, lastUpdate := 0 } =
      some { sessions := [("n", { sessionNonce := some "n", peerIdentityKey := some "k",
                                  isAuthenticated := false, lastUpdate := 0 })],
             identityKeyToSessions := [("k", ["n"])] } := by
  constructor <;> rfl

/-- C2 amended: a second AddSession of the same full session leaves the handle index
unchanged and every GetSession and HasSession observation unchanged, but appends a
second copy of the handle to the identity's handle-set, so the handle-set can contain
the same sessionNonce twice. -/
theorem c2_add_twice_observational (m m1 m2 : SessionManager) (s : PeerSession)
    (n k : String)
    (hn : s.sessionNonce = some n) (hk : s.peerIdentityKey = some k)
    (h1 : AddSession m s = some m1) (h2 : AddSession m1 s = some m2) :
    m2.sessions = m1.sessions ∧
    (∀ x, GetSession m2 x = GetSession m1 x) ∧
    (∀ x, HasSession m2 x = HasSession m1 x) ∧
    ∃ ns, mapLookup m1.identityKeyToSessions k = some (ns ++ [n]) ∧
      mapLookup m2.identityKeyToSessions k = some (ns ++ [n] ++ [n]) := by
  have hb1 := AddSession_both m s hn hk
  rw [h1] at hb1
  injection hb1 with hb1
  have hb2 := AddSession_both m1 s hn hk
  rw [h2] at hb2
  injection hb2 with hb2
  have hsess1 : m1.sessions = mapInsert m.sessions n s := by rw [hb1]
  have hids1 : m1.identityKeyToSessions =
      mapInsert m.identityKeyToSessions k
        ((match mapLookup m.identityKeyToSessions k with
          | some ns => ns
          | none => []) ++ [n]) := by rw [hb1]
  have hlkk : mapLookup m1.identityKeyToSessions k =
      some ((match mapLookup m.identityKeyToSessions k with
        | some ns => ns
        | none => []) ++ [n]) := by
    rw [hids1, mapLookup_insert, if_pos rfl]
  have hsess2 : m2.sessions = m1.sessions := by
    rw [hb2]
    dsimp only
    rw [hsess1, mapInsert_mapInsert]
  have hids2 : m2.identityKeyToSessions =
      mapInsert m1.identityKeyToSessions k
        ((match mapLookup m.identityKeyToSessions k with
          | some ns => ns
          | none => []) ++ [n] ++ [n]) := by
    rw [hb2]
    dsimp only
    rw [hlkk]
  refine ⟨hsess2, ?_, ?_, ?_⟩
  · intro x
    simp only [GetSession, hsess2]
    cases hsx : mapLookup m1.sessions x with
    | some s0 => rfl
    | none =>
      rw [hids2, mapLookup_insert]
      by_cases hkx : k = x
      · subst hkx
        rw [if_pos rfl, hlkk]
        simp only []
        rw [getBestSession_congr hsess2, List.append_assoc]
        exact getBestSession_append_dup m1 _ n
      · rw [if_neg hkx]
        cases hix : mapLookup m1.identityKeyToSessions x with
        | none => rfl
        | some l => exact getBestSession_congr hsess2 l
  · intro x
    simp only [HasSession, hsess2]
    cases hsx : mapLookup m1.sessions x with
    | some s0 => rfl
    | none =>
      rw [hids2, mapLookup_insert]
      by_cases hkx : k = x
      · subst hkx
        rw [if_pos rfl, hlkk]
        simp
      · rw [if_neg hkx]
  · refine ⟨(match mapLookup m.identityKeyToSessions k with
      | some ns => ns
      | none => []), hlkk, ?_⟩
    rw [hids2, mapLookup_insert, if_pos rfl]

/-- C2 witness: the amended theorem applied at the empty store and a concrete session;
the two stores reached by one and by two adds have the same handle index. -/
theorem c2_add_twice_observational_witness :
    ({ sessions := [("n", { sessionNonce := some "n", peerIdentityKey := some "k",
                            isAuthenticated := false, lastUpdate := 0 })],
       identityKeyToSessions := [("k", ["n", "n"])] } : SessionManager).sessions =
      ({ sessions := [("n", { sessionNonce := some "n", peerIdentityKey := some "k",
                              isAuthenticated := false, lastUpdate := 0 })],
         identityKeyToSessions := [("k", ["n"])] } : SessionManager).sessions :=
  (c2_add_twice_observational NewSessionManager _ _
    { sessionNonce := some "n", peerIdentityKey := some "k",
      isAuthenticated := false, lastUpdate := 0 }
    "n" "k" rfl rfl rfl rfl).1

/-- C3 counterexample: from the empty store, AddSession of a full session followed by
RemoveSession of a record carrying only the handle reaches a state in which handle n
sits in identity k's handle-set but has no entry in the handle index, refuting the
claimed invariant over all reachable states. -/
theorem c3_stale_handle_reachable :
    runOps NewSessionManager
      [Op.add { sessionNonce := some "n", peerIdentityKey := some "k",
                isAuthenticated := false, lastUpdate := 0 },
       Op.remove { sessionNonce := some "n", peerIdentityKey := none,
                   isAuthenticated := false, lastUpdate := 0 }] =
      some { sessions := [], identityKeyToSessions := [("k", ["n"])] } ∧
    mapLookup ({ sessions := [], identityKeyToSessions := [("k", ["n"])] } :
        SessionManager).identityKeyToSessions "k" = some ["n"] ∧
    mapLookup ({ sessions := [], identityKeyToSessions := [("k", ["n"])] } :
        SessionManager).sessions "n" = none := by
  refine ⟨rfl, rfl, rfl⟩

/-- C3 amended: index consistency holds on every store reachable from the empty store
by AddSession, UpdateSession and RemoveSession calls whose records keep the two fields
paired under one fixed nonce-to-identity assignment (peerIdentityKey is the assignment
applied to sessionNonce, so both fields are present together or absent together): in
every such state, every handle in any identity's handle-set resolves in the
handle-to-session index. Removal with a partial record, or re-filing a handle under a
different identity, can strand a stale handle. -/
theorem c3_index_consistency (ι : String → String) (ops : List Op) (m' : SessionManager)
    (hops : ∀ op ∈ ops,
      (Op.record op).peerIdentityKey = ((Op.record op).sessionNonce).map ι)
    (h : runOps NewSessionManager ops = some m') :
    ∀ k ns, mapLookup m'.identityKeyToSessions k = some ns →
      ∀ n ∈ ns, (mapLookup m'.sessions n).isSome := by
  intro k ns hlk n hn
  exact ((InvI_runOps hops (InvI_empty ι) h) k ns hlk n hn).2

/-- C3 witness: the amended theorem applied to one concrete AddSession call. -/
theorem c3_index_consistency_witness :
    (mapLookup ({ sessions := [("n", { sessionNonce := some "n",
                                       peerIdentityKey := some "k",
                                       isAuthenticated := false, lastUpdate := 0 })],
                  identityKeyToSessions := [("k", ["n"])] } :
        SessionManager).sessions "n").isSome = true :=
  c3_index_consistency (fun _ => "k")
    [Op.add { sessionNonce := some "n", peerIdentityKey := some "k",
              isAuthenticated := false, lastUpdate := 0 }]
    _ (by decide) rfl "k" ["n"] rfl "n" (by decide)

/-- C4: authentication precedence in best-session selection. For a store whose handle
index does not contain the identity key itself, and whose identity entry holds exactly
the two handles of S1 (unauthenticated, later) and S2 (authenticated, earlier) in
either order, GetSession on the identity key returns S2. -/
theorem c4_authentication_precedence (m : SessionManager) (k n1 n2 : String)
    (s1 s2 : PeerSession) (ns : List String)
    (hkk : mapLookup m.sessions k = none)
    (hns : mapLookup m.identityKeyToSessions k = some ns)
    (horder : ns = [n1, n2] ∨ ns = [n2, n1])
    (h1 : mapLookup m.sessions n1 = some s1)
    (h2 : mapLookup m.sessions n2 = some s2)
    (ha1 : s1.isAuthenticated = false)
    (ha2 : s2.isAuthenticated = true)
    (ht : s2.lastUpdate < s1.lastUpdate) :
    GetSession m k = some s2 := by
  rcases horder with rfl | rfl <;>
    simp [GetSession, hkk, hns, getBestSession, getBestSessionStep, h1, h2, ha1, ha2]

/-- C4 witness: a concrete two-session store in which the authenticated but older
session wins over the unauthenticated more recent one. -/
theorem c4_authentication_precedence_witness :
    GetSession { sessions := [("a", { sessionNonce := some "a", peerIdentityKey := some "k",
                                      isAuthenticated := false, lastUpdate := 5 }),
                             ("b", { sessionNonce := some "b", peerIdentityKey := some "k",
                                     isAuthenticated := true, lastUpdate := 1 })],
                 identityKeyToSessions := [("k", ["a", "b"])] } "k" =
      some { sessionNonce := some "b", peerIdentityKey := some "k",
             isAuthenticated := true, lastUpdate := 1 } :=
  c4_authentication_precedence _ "k" "a" "b"
    { sessionNonce := some "a", peerIdentityKey := some "k",
      isAuthenticated := false, lastUpdate := 5 }
    { sessionNonce := some "b", peerIdentityKey := some "k",
      isAuthenticated := true, lastUpdate := 1 }
    ["a", "b"] (by decide) (by decide)
    (Or.inl rfl) (by decide) (by decide) rfl rfl (by decide)

/-- C5: tie-break order of the best-session fold. With two resolvable handles of equal
authentication status folded left to right, the strictly later lastUpdate wins in
either direction, and on equal timestamps the earlier-encountered candidate is
retained. -/
theorem c5_tie_break_order (m : SessionManager) (n1 n2 : String) (s1 s2 : PeerSession)
    (h1 : mapLookup m.sessions n1 = some s1)
    (h2 : mapLookup m.sessions n2 = some s2)
    (ha : s1.isAuthenticated = s2.isAuthenticated) :
    (s1.lastUpdate < s2.lastUpdate → getBestSession m [n1, n2] = some s2) ∧
    (s2.lastUpdate < s1.lastUpdate → getBestSession m [n1, n2] = some s1) ∧
    (s1.lastUpdate = s2.lastUpdate → getBestSession m [n1, n2] = some s1) := by
  refine ⟨fun ht => ?_, fun ht => ?_, fun ht => ?_⟩
  · simp [getBestSession, getBestSessionStep, h1, h2, ha, ht]
  · have hnot := Nat.lt_asymm ht
    simp [getBestSession, getBestSessionStep, h1, h2, ha, hnot]
  · simp [getBestSession, getBestSessionStep, h1, h2, ha, ht]

/-- C5 witness: among two authenticated sessions the more recently updated one wins. -/
theorem c5_tie_break_order_witness :
    getBestSession { sessions := [("a", { sessionNonce := some "a",
                                          peerIdentityKey := some "k",
                                          isAuthenticated := true, lastUpdate := 1 }),
                                  ("b", { sessionNonce := some "b",
                                          peerIdentityKey := some "k",
                                          isAuthenticated := true, lastUpdate := 4 })],
                     identityKeyToSessions := [("k", ["a", "b"])] } ["a", "b"] =
      some { sessionNonce := some "b", peerIdentityKey := some "k",
             isAuthenticated := true, lastUpdate := 4 } :=
  (c5_tie_break_order _ "a" "b"
    { sessionNonce := some "a", peerIdentityKey := some "k",
      isAuthenticated := true, lastUpdate := 1 }
    { sessionNonce := some "b", peerIdentityKey := some "k",
      isAuthenticated := true, lastUpdate := 4 }
    (by decide) (by decide) rfl).1 (by decide)

/-- C6: GetSession lookup order and absence semantics. A handle-index hit is returned
as is; otherwise the identifier is read as an identity key and the best session over
its handle-set is returned; the result is absence exactly when neither index matches
or when every handle in the matched handle-set fails to resolve. -/
theorem c6_lookup_order_and_absence (m : SessionManager) (identifier : String) :
    (∀ s, mapLookup m.sessions identifier = some s → GetSession m identifier = some s) ∧
    (mapLookup m.sessions identifier = none →
      ∀ ns, mapLookup m.identityKeyToSessions identifier = some ns →
        GetSession m identifier = getBestSession m ns) ∧
    (mapLookup m.sessions identifier = none →
      mapLookup m.identityKeyToSessions identifier = none →
      GetSession m identifier = none) ∧
    (mapLookup m.sessions identifier = none →
      ∀ ns, mapLookup m.identityKeyToSessions identifier = some ns →
        (GetSession m identifier = none ↔
          ∀ n ∈ ns, mapLookup m.sessions n = none)) := by
  refine ⟨?_, ?_, ?_, ?_⟩
  · intro s h
    simp [GetSession, h]
  · intro hnone ns hns
    simp [GetSession, hnone, hns]
  · intro hnone hids
    simp [GetSession, hnone, hids]
  · intro hnone ns hns
    simp only [GetSession, hnone, hns]
    rw [getBestSession, foldl_getBestSessionStep_eq_none]
    simp

/-- C6 witness: on a concrete store, a handle-index hit returns that exact session. -/
theorem c6_lookup_order_and_absence_witness :
    GetSession { sessions := [("n", { sessionNonce := some "n",
                                      peerIdentityKey := some "k",
                                      isAuthenticated := true, lastUpdate := 2 })],
                 identityKeyToSessions := [("k", ["n"])] } "n" =
      some { sessionNonce := some "n", peerIdentityKey := some "k",
             isAuthenticated := true, lastUpdate := 2 } :=
  (c6_lookup_order_and_absence _ "n").1 _ (by decide)

/-- C7: removal consistency. When a full session is the only one filed for its identity
(every handle in the identity's handle-set equals its nonce), and the identity key is
not itself a stored handle nor the nonce an identity key, RemoveSession deletes both
sides: both HasSession queries turn false and the identity key disappears from the
identity index with no empty handle-set left behind. -/
theorem c7_removal_consistency (m : SessionManager) (s : PeerSession) (n k : String)
    (ns : List String)
    (hn : s.sessionNonce = some n) (hk : s.peerIdentityKey = some k)
    (hns : mapLookup m.identityKeyToSessions k = some ns)
    (honly : ∀ x ∈ ns, x = n)
    (hkk : mapLookup m.sessions k = none)
    (hnn : mapLookup m.identityKeyToSessions n = none) :
    RemoveSession m s =
      some { sessions := mapDelete m.sessions n,
             identityKeyToSessions := mapDelete m.identityKeyToSessions k } ∧
    HasSession { sessions := mapDelete m.sessions n,
                 identityKeyToSessions := mapDelete m.identityKeyToSessions k } k =
      false ∧
    HasSession { sessions := mapDelete m.sessions n,
                 identityKeyToSessions := mapDelete m.identityKeyToSessions k } n =
      false ∧
    mapLookup (mapDelete m.identityKeyToSessions k) k = none := by
  refine ⟨?_, ?_, ?_, ?_⟩
  · simp [RemoveSession, hn, hk, hns, removeSessionNonce_eq_nil honly]
  · simp [HasSession, mapLookup_delete, hkk, ite_self]
  · simp [HasSession, mapLookup_delete, hnn, ite_self]
  · simp [mapLookup_delete]

/-- C7 witness: removing the only session of its identity from a concrete store. -/
theorem c7_removal_consistency_witness :
    RemoveSession { sessions := [("n", { sessionNonce := some "n",
                                         peerIdentityKey := some "k",
                                         isAuthenticated := true, lastUpdate := 3 })],
                    identityKeyToSessions := [("k", ["n"])] }
      { sessionNonce := some "n", peerIdentityKey := some "k",
        isAuthenticated := true, lastUpdate := 3 } =
      some { sessions := mapDelete [("n", { sessionNonce := some "n",
                                            peerIdentityKey := some "k",
                                            isAuthenticated := true, lastUpdate := 3 })] "n",
             identityKeyToSessions := mapDelete [("k", ["n"])] "k" } :=
  (c7_removal_consistency _
    { sessionNonce := some "n", peerIdentityKey := some "k",
      isAuthenticated := true, lastUpdate := 3 }
    "n" "k" ["n"] rfl rfl (by decide) (by decide) (by decide) (by decide)).1

/-- C9: GetSession and HasSession are pure reads. Their state-passing readings return
the store unchanged together with the pure results, so a returned record is a value
copy and later lookups are unaffected. -/
theorem c9_reads_frame (m : SessionManager) (identifier : String) :
    GetSessionSt m identifier = (GetSession m identifier, m) ∧
    HasSessionSt m identifier = (HasSession m identifier, m) := by
  constructor
  · simp only [GetSessionSt, GetSession]
    cases hs : mapLookup m.sessions identifier with
    | some s => rfl
    | none =>
      cases hi : mapLookup m.identityKeyToSessions identifier with
      | none => rfl
      | some ns => exact getBestSession_state_threading m ns none
  · simp only [HasSessionSt, HasSession]
    cases hs : mapLookup m.sessions identifier with
    | some s => rfl
    | none =>
      cases hi : mapLookup m.identityKeyToSessions identifier with
      | none => rfl
      | some ns => rfl

/-- C10: RemoveSession deletes every occurrence of the handle. After k identical full
AddSession calls from the empty store followed by one RemoveSession of that session,
no occurrence of the nonce remains anywhere in the identity index and both HasSession
queries are false; the store is empty again. -/
theorem c10_remove_every_occurrence (j : Nat) (n k : String) (a : Bool) (t : Nat)
    (hj : 1 ≤ j) :
    ∃ m', runOps NewSessionManager
        (List.replicate j (Op.add ⟨some n, some k, a, t⟩) ++
          [Op.remove ⟨some n, some k, a, t⟩]) = some m' ∧
      (∀ k' ns, mapLookup m'.identityKeyToSessions k' = some ns → n ∉ ns) ∧
      HasSession m' k = false ∧ HasSession m' n = false := by
  obtain ⟨j', rfl⟩ : ∃ j'', j = j'' + 1 := ⟨j - 1, by omega⟩
  refine ⟨NewSessionManager, ?_, ?_, ?_, ?_⟩
  · rw [runOps_append]
    have hfirst : runOps NewSessionManager
        (List.replicate (j' + 1) (Op.add ⟨some n, some k, a, t⟩)) =
        some { sessions := [(n, ⟨some n, some k, a, t⟩)],
               identityKeyToSessions := [(k, List.replicate (1 + j') n)] } := by
      rw [List.replicate_succ]
      simp only [runOps, applyOp]
      have h0 :
          AddSession NewSessionManager ⟨some n, some k, a, t⟩ =
          some { sessions := [(n, ⟨some n, some k, a, t⟩)],
                 identityKeyToSessions := [(k, List.replicate 1 n)] } := by
        rw [AddSession_both _ _ rfl rfl]
        simp [NewSessionManager, mapLookup, mapInsert, List.replicate]
      rw [h0]
      exact runOps_addLoop j' n k a t 1
    rw [hfirst]
    simp only [runOps]
    have hrm :
        applyOp
          { sessions := [(n, ⟨some n, some k, a, t⟩)],
            identityKeyToSessions := [(k, List.replicate (1 + j') n)] }
          (Op.remove ⟨some n, some k, a, t⟩) = some NewSessionManager :=
      RemoveSession_drain (1 + j') n k a t
    rw [hrm]
  · intro k' ns h
    simp [NewSessionManager, mapLookup] at h
  · rfl
  · rfl

/-- C10 witness: one add of a concrete full session followed by its removal empties the
store. -/
theorem c10_remove_every_occurrence_witness :
    ∃ m', runOps NewSessionManager
        (List.replicate 1 (Op.add ⟨some "n", some "k", true, 5⟩) ++
          [Op.remove ⟨some "n", some "k", true, 5⟩]) = some m' ∧
      (∀ k' ns, mapLookup m'.identityKeyToSessions k' = some ns → "n" ∉ ns) ∧
      HasSession m' "k" = false ∧ HasSession m' "n" = false :=
  c10_remove_every_occurrence 1 "n" "k" true 5 (by decide)

end Sessionmanager
